import Mathlib

/-!
Verification of the page-granularity bitmap allocator
(`BitmapPageAllocator` in `src/bitmap.rs`) against its natural-language
specification.

Modelling conventions:

* Rust `usize` values are modelled as `Nat`.  Subtractions that can wrap
  around in the compiled (release-profile) code are modelled by `wsub`,
  two's-complement wrap-around subtraction modulo `2 ^ 64`.  Additions
  are plain `Nat` addition; the theorems below only exercise them on
  states where they cannot overflow (this is proved, not assumed, via
  the state invariant `Inv`).
* The external bit index space (the `bitmap_allocator` crate) is not
  part of this repository and is declared out of scope by the spec
  (§1, §6).  It is modelled from the spec's §6 contract as the set of
  currently *free* bit indices, a `Finset Nat`:
  - `bitAlloc` allocates the lowest free index (the deterministic
    first-fit policy required by the spec's §8 concrete scenarios);
  - `allocContiguous` allocates a contiguous free run, either exactly at
    the hint index (§4.3: "request exactly that contiguous run") or at
    the lowest suitably aligned position;
  - `deallocContiguous` marks the run free and reports whether it was
    fully allocated (= not free) beforehand (§6, §4.4).
* Crate-level helpers `align_down`, `align_up`, `is_aligned` and the
  error type `AllocError` live in the repository's `lib.rs`, which is
  not among the provided sources; they are modelled from the spec
  (`alignDown`, `alignUp`, `isAligned`, `AllocError`).
* Rust `assert!` preconditions (page-size power of two in `init`,
  page-aligned address in `dealloc_pages`) appear as hypotheses of the
  theorems about the corresponding operations.
* A fallible operation returns `Except AllocError (Nat × State)`; an
  error result carries no state, reflecting that every error path in
  the source returns before any mutation.
* `PAGE_SIZE` is a const-generic parameter of the Rust type; it is the
  explicit first argument `PS` of every operation here.
-/

namespace BitmapAlloc

/-- The number of values of `usize` (64-bit platform). -/
def USIZE : Nat := 2 ^ 64

/-- `MAX_ALIGN_1GB` from `src/bitmap.rs`. -/
def MAX_ALIGN_1GB : Nat := 0x40000000

/-- Wrap-around (release-profile) `usize` subtraction `a - b` for `a b < USIZE`. -/
def wsub (a b : Nat) : Nat := (USIZE + a - b) % USIZE

/-- Modelled from the spec (§7): the two recoverable error kinds. -/
inductive AllocError where
  | NoMemory
  | InvalidParam
  deriving DecidableEq

/-- Modelled from the spec: crate helper `align_down(x, a)` — round `x`
down to a multiple of `a` (`a` a power of two in all uses). -/
def alignDown (x a : Nat) : Nat := x / a * a

/-- Modelled from the spec: crate helper `align_up(x, a)`. -/
def alignUp (x a : Nat) : Nat := (x + a - 1) / a * a

/-- Modelled from the spec: crate helper `is_aligned(x, a)` = `x % a == 0`. -/
def isAligned (x a : Nat) : Bool := x % a == 0

/-- Fuel-driven helper for `isPow2` (structural recursion on the fuel). -/
def isPow2Aux : Nat → Nat → Bool
  | 0, _ => false
  | _ + 1, 0 => false
  | _ + 1, 1 => true
  | f + 1, n + 2 => decide ((n + 2) % 2 = 0) && isPow2Aux f ((n + 2) / 2)

/-- Rust `usize::is_power_of_two`. -/
def isPow2 (n : Nat) : Bool := isPow2Aux n n

/-- Fuel-driven helper for `trailingZeros`. -/
def tzAux : Nat → Nat → Nat
  | 0, _ => 0
  | _ + 1, 0 => 0
  | _ + 1, 1 => 0
  | f + 1, n + 2 => if (n + 2) % 2 = 0 then tzAux f ((n + 2) / 2) + 1 else 0

/-- Rust `usize::trailing_zeros`, used in the source only on validated
powers of two (where it equals the base-2 logarithm). -/
def trailingZeros (n : Nat) : Nat := tzAux n n

/-- Modelled from the spec (§6): allocate exactly one free index.  The
index space hands out the lowest free index (deterministic first-fit,
as required by the concrete scenarios of §8). -/
def bitAlloc (free : Finset Nat) : Option Nat :=
  if h : free.Nonempty then some (free.min' h) else none

/-- Modelled from the spec (§6, §4.3): allocate a contiguous free run of
`size` bits whose start index is `2 ^ alignLog2`-aligned — exactly at
the hint index when one is given, else at the lowest admissible index. -/
def allocContiguous (free : Finset Nat) (hint : Option Nat) (size alignLog2 : Nat) :
    Option Nat :=
  match hint with
  | some i =>
      if 2 ^ alignLog2 ∣ i ∧ ∀ j ∈ Finset.Ico i (i + size), j ∈ free then some i else none
  | none =>
      (List.range (free.sup id + 1)).find? fun i =>
        decide (2 ^ alignLog2 ∣ i ∧ ∀ j ∈ Finset.Ico i (i + size), j ∈ free)

/-- Modelled from the spec (§6, §4.4): mark the run `[i, i + n)` free and
report whether it was fully allocated (i.e. fully non-free) beforehand. -/
def deallocContiguous (free : Finset Nat) (i n : Nat) : Bool × Finset Nat :=
  (decide (∀ j ∈ Finset.Ico i (i + n), j ∉ free), free ∪ Finset.Ico i (i + n))

/-- Modelled from the spec (§6): free a single index, reporting whether it
was allocated beforehand. -/
def bitDealloc (free : Finset Nat) (i : Nat) : Bool × Finset Nat :=
  (decide (i ∉ free), insert i free)

/-- The allocator state of `src/bitmap.rs`: `base`, `total_pages`,
`used_pages`, and the inner bit index space (as its set of free bits). -/
structure BitmapPageAllocator where
  base : Nat
  total_pages : Nat
  used_pages : Nat
  inner : Finset Nat
  deriving DecidableEq

/-- `BitmapPageAllocator::new()`. -/
def BitmapPageAllocator.new : BitmapPageAllocator :=
  { base := 0, total_pages := 0, used_pages := 0, inner := ∅ }

/-- `available_pages()` = `total_pages - used_pages` (truncated `Nat`
subtraction; the underflow question for corrupted states is addressed in
the theorems about claim C5). -/
def available_pages (s : BitmapPageAllocator) : Nat :=
  s.total_pages - s.used_pages

/-- `BaseAllocator::init(start, size)` from `src/bitmap.rs`.  The source
asserts `PAGE_SIZE.is_power_of_two()`; theorems about `init` take that
as a hypothesis.  The subtraction `end - start` cannot wrap for the
valid initializations the theorems quantify over. -/
def init (PS : Nat) (s : BitmapPageAllocator) (start size : Nat) : BitmapPageAllocator :=
  let e := alignDown (start + size) PS
  let st := alignUp start PS
  let total := (e - st) / PS
  let b := alignDown st MAX_ALIGN_1GB
  let startIdx := (st - b) / PS
  { s with
    base := b
    total_pages := total
    inner := s.inner ∪ Finset.Ico startIdx (startIdx + total) }

/-- `PageAllocator::alloc_pages(num_pages, align_pow2)` from `src/bitmap.rs`. -/
def alloc_pages (PS : Nat) (s : BitmapPageAllocator) (num_pages align_pow2 : Nat) :
    Except AllocError (Nat × BitmapPageAllocator) :=
  if MAX_ALIGN_1GB < align_pow2 ∨ isAligned align_pow2 PS = false then
    .error .InvalidParam
  else
    let ap := align_pow2 / PS
    if isPow2 ap = false then .error .InvalidParam
    else if available_pages s < num_pages then .error .NoMemory
    else
      let alignLog2 := trailingZeros ap
      if num_pages = 1 then
        match bitAlloc s.inner with
        | some idx =>
            .ok ((idx * PS + s.base) % USIZE,
              { s with inner := s.inner.erase idx, used_pages := s.used_pages + num_pages })
        | none => .error .NoMemory
      else if 1 < num_pages then
        match allocContiguous s.inner none num_pages alignLog2 with
        | some idx =>
            .ok ((idx * PS + s.base) % USIZE,
              { s with inner := s.inner \ Finset.Ico idx (idx + num_pages),
                       used_pages := s.used_pages + num_pages })
        | none => .error .NoMemory
      else .error .InvalidParam

/-- `PageAllocator::alloc_pages_at(base, num_pages, align_pow2)` from
`src/bitmap.rs`.  The index translation `(base - self.base)` is the
wrap-around subtraction `wsub`. -/
def alloc_pages_at (PS : Nat) (s : BitmapPageAllocator) (b num_pages align_pow2 : Nat) :
    Except AllocError (Nat × BitmapPageAllocator) :=
  if MAX_ALIGN_1GB < align_pow2 ∨ isAligned align_pow2 PS = false ∨
      isAligned b align_pow2 = false then
    .error .InvalidParam
  else
    let ap := align_pow2 / PS
    if isPow2 ap = false then .error .InvalidParam
    else
      let alignLog2 := trailingZeros ap
      let idx := wsub b s.base / PS
      match allocContiguous s.inner (some idx) num_pages alignLog2 with
      | some i =>
          .ok ((i * PS + s.base) % USIZE,
            { s with inner := s.inner \ Finset.Ico i (i + num_pages),
                     used_pages := s.used_pages + num_pages })
      | none => .error .NoMemory

/-- `PageAllocator::dealloc_pages(pos, num_pages)` from `src/bitmap.rs`.
The source asserts `is_aligned(pos, PAGE_SIZE)`; theorems about this
operation take that as a hypothesis.  The bit clearing always happens;
`used_pages` is decremented only when the index space reports the run
fully allocated beforehand. -/
def dealloc_pages (PS : Nat) (s : BitmapPageAllocator) (pos num_pages : Nat) :
    BitmapPageAllocator :=
  let idx := wsub pos s.base / PS
  let res : Bool × Finset Nat :=
    if num_pages = 1 then bitDealloc s.inner idx
    else if 1 < num_pages then deallocContiguous s.inner idx num_pages
    else (false, s.inner)
  { s with
    inner := res.2
    used_pages := if res.1 then wsub s.used_pages num_pages else s.used_pages }

instance {ε α : Type} [DecidableEq ε] [DecidableEq α] : DecidableEq (Except ε α) := fun x y =>
  match x, y with
  | .ok a, .ok b =>
      if h : a = b then isTrue (by rw [h]) else isFalse fun hc => h (by injection hc)
  | .error a, .error b =>
      if h : a = b then isTrue (by rw [h]) else isFalse fun hc => h (by injection hc)
  | .ok _, .error _ => isFalse fun hc => Except.noConfusion hc
  | .error _, .ok _ => isFalse fun hc => Except.noConfusion hc

/-- Projection: the error of a failed allocation, if any. -/
def errOf (r : Except AllocError (Nat × BitmapPageAllocator)) : Option AllocError :=
  match r with
  | .error e => some e
  | .ok _ => none

/-- Projection: the address returned by a successful allocation, if any. -/
def addrOf (r : Except AllocError (Nat × BitmapPageAllocator)) : Option Nat :=
  match r with
  | .error _ => none
  | .ok (a, _) => some a

/-- Projection: the post-state of a successful allocation, if any. -/
def stateOf (r : Except AllocError (Nat × BitmapPageAllocator)) :
    Option BitmapPageAllocator :=
  match r with
  | .error _ => none
  | .ok (_, s) => some s

/-- The reachable-state invariant of the allocator relative to the first
managed bit index `off` (`= (start' - base) / PAGE_SIZE` set up by `init`):
free bits stay inside the managed index window, the number of free bits
matches the accounting, and the managed window's addresses fit in `usize`. -/
def Inv (PS off : Nat) (s : BitmapPageAllocator) : Prop :=
  (∀ i ∈ s.inner, off ≤ i ∧ i < off + s.total_pages) ∧
  s.inner.card = s.total_pages - s.used_pages ∧
  s.used_pages ≤ s.total_pages ∧
  s.total_pages < USIZE ∧
  s.base + (off + s.total_pages) * PS ≤ USIZE ∧
  2 ^ 30 ∣ s.base

/-- States reachable from a fresh allocator by one valid `init` followed by
arbitrary `alloc_pages`, `alloc_pages_at` and (page-aligned, as the source
asserts) `dealloc_pages` calls. -/
inductive Reach (PS : Nat) : BitmapPageAllocator → Prop where
  | start (st sz : Nat) (hpow : isPow2 PS = true)
      (hle : alignUp st PS ≤ alignDown (st + sz) PS) (hsz : st + sz < USIZE) :
      Reach PS (init PS BitmapPageAllocator.new st sz)
  | alloc_step {s s' : BitmapPageAllocator} {n a r : Nat}
      (hr : Reach PS s) (h : alloc_pages PS s n a = .ok (r, s')) : Reach PS s'
  | alloc_at_step {s s' : BitmapPageAllocator} {b n a r : Nat}
      (hr : Reach PS s) (h : alloc_pages_at PS s b n a = .ok (r, s')) : Reach PS s'
  | dealloc_step {s : BitmapPageAllocator} (pos num : Nat)
      (hr : Reach PS s) (hal : isAligned pos PS = true) :
      Reach PS (dealloc_pages PS s pos num)

/-- Like `Reach`, but every `dealloc_pages` call frees a run that lies
entirely inside the managed index window and is fully allocated at the
time of the call (the intended use of deallocation per the spec, §4.4). -/
inductive ProperReach (PS : Nat) : Nat → BitmapPageAllocator → Prop where
  | start (st sz : Nat) (hpow : isPow2 PS = true)
      (hle : alignUp st PS ≤ alignDown (st + sz) PS) (hsz : st + sz < USIZE) :
      ProperReach PS ((alignUp st PS - alignDown (alignUp st PS) MAX_ALIGN_1GB) / PS)
        (init PS BitmapPageAllocator.new st sz)
  | alloc_step {off : Nat} {s s' : BitmapPageAllocator} {n a r : Nat}
      (hr : ProperReach PS off s) (h : alloc_pages PS s n a = .ok (r, s')) :
      ProperReach PS off s'
  | alloc_at_step {off : Nat} {s s' : BitmapPageAllocator} {b n a r : Nat}
      (hr : ProperReach PS off s) (h : alloc_pages_at PS s b n a = .ok (r, s')) :
      ProperReach PS off s'
  | dealloc_step {off : Nat} {s : BitmapPageAllocator} (pos num : Nat)
      (hr : ProperReach PS off s) (hal : isAligned pos PS = true)
      (hrun : ∀ j ∈ Finset.Ico (wsub pos s.base / PS) (wsub pos s.base / PS + num),
        (off ≤ j ∧ j < off + s.total_pages) ∧ j ∉ s.inner) :
      ProperReach PS off (dealloc_pages PS s pos num)

/-- The state produced by `init(0x40001000, 0x2000)` with `PAGE_SIZE = 4096`:
`base = 0x40000000`, two managed pages at bit indices 1 and 2 (index 0 is the
permanently reserved bit introduced by the base rounding). -/
def stateA : BitmapPageAllocator :=
  { base := 0x40000000, total_pages := 2, used_pages := 0, inner := {1, 2} }

/-- `stateA` after a successful single-page allocation of bit index 1. -/
def stateB : BitmapPageAllocator :=
  { base := 0x40000000, total_pages := 2, used_pages := 1, inner := {2} }

/-- A four-page allocator whose managed window starts at bit index 0. -/
def stateW : BitmapPageAllocator :=
  { base := 0x40000000, total_pages := 4, used_pages := 0, inner := {0, 1, 2, 3} }

theorem wsub_of_le {a b : Nat} (h : b ≤ a) (h2 : a - b < USIZE) : wsub a b = a - b := by
  unfold wsub
  rw [Nat.add_sub_assoc h, Nat.add_mod_left, Nat.mod_eq_of_lt h2]

theorem isPow2Aux_pow : ∀ f n, isPow2Aux f n = true → 2 ^ tzAux f n = n := by
  intro f
  induction f with
  | zero => intro n h; simp [isPow2Aux] at h
  | succ f ih =>
    intro n h
    match n with
    | 0 => simp [isPow2Aux] at h
    | 1 => simp [tzAux]
    | (m + 2) =>
      rw [isPow2Aux] at h
      simp only [Bool.and_eq_true, decide_eq_true_eq] at h
      obtain ⟨h1, h2⟩ := h
      rw [tzAux, if_pos h1, pow_succ, ih _ h2,
        Nat.div_mul_cancel (Nat.dvd_of_mod_eq_zero h1)]

theorem isPow2_pow {n : Nat} (h : isPow2 n = true) : 2 ^ trailingZeros n = n :=
  isPow2Aux_pow n n h

theorem isPow2_pos {n : Nat} (h : isPow2 n = true) : 0 < n := by
  rw [← isPow2_pow h]
  exact pow_pos (by norm_num) _

theorem MAX_ALIGN_eq : MAX_ALIGN_1GB = 2 ^ 30 := by decide

theorem alignDown_le {x a : Nat} : alignDown x a ≤ x := Nat.div_mul_le_self x a

theorem alignDown_dvd {x a : Nat} : a ∣ alignDown x a := dvd_mul_left a (x / a)

theorem alignUp_dvd {x a : Nat} : a ∣ alignUp x a := dvd_mul_left a ((x + a - 1) / a)

theorem alignDown_eq_of_dvd {x a : Nat} (h : a ∣ x) : alignDown x a = x := by
  unfold alignDown
  exact Nat.div_mul_cancel h

theorem bitAlloc_some {free : Finset Nat} {i : Nat} (h : bitAlloc free = some i) :
    i ∈ free := by
  unfold bitAlloc at h
  split at h
  · injection h with h'
    rw [← h']
    exact Finset.min'_mem _ _
  · cases h

theorem allocContiguous_hint_some {free : Finset Nat} {i n al j : Nat}
    (h : allocContiguous free (some i) n al = some j) :
    j = i ∧ 2 ^ al ∣ i ∧ ∀ k ∈ Finset.Ico i (i + n), k ∈ free := by
  simp only [allocContiguous] at h
  split_ifs at h with hc
  · injection h with h'
    exact ⟨h'.symm, hc.1, hc.2⟩

theorem allocContiguous_hint_none {free : Finset Nat} {i n al : Nat}
    (hc : ¬ (2 ^ al ∣ i ∧ ∀ k ∈ Finset.Ico i (i + n), k ∈ free)) :
    allocContiguous free (some i) n al = none := by
  simp only [allocContiguous]
  rw [if_neg hc]

theorem allocContiguous_none_some {free : Finset Nat} {n al i : Nat}
    (h : allocContiguous free none n al = some i) :
    2 ^ al ∣ i ∧ ∀ k ∈ Finset.Ico i (i + n), k ∈ free := by
  simp only [allocContiguous] at h
  have := List.find?_some h
  simpa using this




theorem pos_PS_of_valid {PS a : Nat} (hpow : isPow2 (a / PS) = true) : 0 < PS := by
  rcases Nat.eq_zero_or_pos PS with h0 | h
  · rw [h0, Nat.div_zero] at hpow
    exact absurd hpow (by decide)
  · exact h

theorem addr_no_wrap {PS off idx : Nat} {s : BitmapPageAllocator}
    (hI : Inv PS off s) (hPS : 0 < PS) (hidx : idx ∈ s.inner) :
    (idx * PS + s.base) % USIZE = idx * PS + s.base := by
  obtain ⟨hsub, -, -, -, hbound, -⟩ := hI
  have h1 : idx < off + s.total_pages := (hsub idx hidx).2
  have h2 : (idx + 1) * PS ≤ (off + s.total_pages) * PS :=
    Nat.mul_le_mul_right _ (by omega)
  rw [Nat.succ_mul] at h2
  apply Nat.mod_eq_of_lt
  omega

theorem alloc_pages_ok_raw {PS num a addr : Nat} {s s' : BitmapPageAllocator}
    (h : alloc_pages PS s num a = .ok (addr, s')) :
    a ≤ MAX_ALIGN_1GB ∧ isAligned a PS = true ∧ isPow2 (a / PS) = true ∧
    num ≤ available_pages s ∧ 0 < PS ∧
    s'.base = s.base ∧ s'.total_pages = s.total_pages ∧
    s'.used_pages = s.used_pages + num ∧
    ∃ idx, addr = (idx * PS + s.base) % USIZE ∧ idx ∈ s.inner ∧
      ((num = 1 ∧ s'.inner = s.inner.erase idx) ∨
       (1 < num ∧ (a / PS) ∣ idx ∧ (∀ j ∈ Finset.Ico idx (idx + num), j ∈ s.inner) ∧
        s'.inner = s.inner \ Finset.Ico idx (idx + num))) := by
  simp only [alloc_pages] at h
  by_cases h1 : MAX_ALIGN_1GB < a ∨ isAligned a PS = false
  · rw [if_pos h1] at h; exact Except.noConfusion h
  rw [if_neg h1] at h
  rw [not_or, Bool.not_eq_false] at h1
  by_cases h2 : isPow2 (a / PS) = false
  · rw [if_pos h2] at h; exact Except.noConfusion h
  rw [if_neg h2] at h
  rw [Bool.not_eq_false] at h2
  by_cases h3 : available_pages s < num
  · rw [if_pos h3] at h; exact Except.noConfusion h
  rw [if_neg h3] at h
  by_cases h4 : num = 1
  · rw [if_pos h4] at h
    split at h
    next idx heq =>
      injection h with h'
      injection h' with ha hs
      refine ⟨by omega, h1.2, h2, by omega, pos_PS_of_valid h2, by rw [← hs], by rw [← hs],
        by rw [← hs], idx, ha.symm, bitAlloc_some heq, Or.inl ⟨h4, by rw [← hs]⟩⟩
    next => exact Except.noConfusion h
  · rw [if_neg h4] at h
    by_cases h5 : 1 < num
    · rw [if_pos h5] at h
      split at h
      next idx heq =>
        obtain ⟨hdvd, hrun⟩ := allocContiguous_none_some heq
        rw [isPow2_pow h2] at hdvd
        injection h with h'
        injection h' with ha hs
        have hidx : idx ∈ s.inner := hrun idx (by simp [Finset.mem_Ico]; omega)
        refine ⟨by omega, h1.2, h2, by omega, pos_PS_of_valid h2, by rw [← hs], by rw [← hs],
          by rw [← hs], idx, ha.symm, hidx, Or.inr ⟨h5, hdvd, hrun, by rw [← hs]⟩⟩
      next => exact Except.noConfusion h
    · rw [if_neg h5] at h; exact Except.noConfusion h

theorem alloc_pages_at_ok_raw {PS b num a r : Nat} {s s' : BitmapPageAllocator}
    (h : alloc_pages_at PS s b num a = .ok (r, s')) :
    a ≤ MAX_ALIGN_1GB ∧ isAligned a PS = true ∧ isAligned b a = true ∧
    isPow2 (a / PS) = true ∧ 0 < PS ∧
    s'.base = s.base ∧ s'.total_pages = s.total_pages ∧
    s'.used_pages = s.used_pages + num ∧
    r = (wsub b s.base / PS * PS + s.base) % USIZE ∧
    (a / PS) ∣ (wsub b s.base / PS) ∧
    (∀ j ∈ Finset.Ico (wsub b s.base / PS) (wsub b s.base / PS + num), j ∈ s.inner) ∧
    s'.inner = s.inner \ Finset.Ico (wsub b s.base / PS) (wsub b s.base / PS + num) := by
  simp only [alloc_pages_at] at h
  by_cases h1 : MAX_ALIGN_1GB < a ∨ isAligned a PS = false ∨ isAligned b a = false
  · rw [if_pos h1] at h; exact Except.noConfusion h
  rw [if_neg h1] at h
  rw [not_or, not_or, Bool.not_eq_false, Bool.not_eq_false] at h1
  by_cases h2 : isPow2 (a / PS) = false
  · rw [if_pos h2] at h; exact Except.noConfusion h
  rw [if_neg h2] at h
  rw [Bool.not_eq_false] at h2
  split at h
  next i heq =>
    obtain ⟨hji, hdvd, hrun⟩ := allocContiguous_hint_some heq
    subst hji
    rw [isPow2_pow h2] at hdvd
    injection h with h'
    injection h' with ha hs
    exact ⟨by omega, h1.2.1, h1.2.2, h2, pos_PS_of_valid h2, by rw [← hs], by rw [← hs],
      by rw [← hs], ha.symm, hdvd, hrun, by rw [← hs]⟩
  next => exact Except.noConfusion h

theorem init_inv {PS start size : Nat} (hpow : isPow2 PS = true)
    (hle : alignUp start PS ≤ alignDown (start + size) PS)
    (hsz : start + size < USIZE) :
    Inv PS ((alignUp start PS - alignDown (alignUp start PS) MAX_ALIGN_1GB) / PS)
      (init PS BitmapPageAllocator.new start size) := by
  have hPSpos : 0 < PS := isPow2_pos hpow
  set st := alignUp start PS with hst_def
  set e := alignDown (start + size) PS with he_def
  set b := alignDown st MAX_ALIGN_1GB with hb_def
  set off := (st - b) / PS with hoff_def
  set total := (e - st) / PS with htotal_def
  have hb_le : b ≤ st := alignDown_le
  have he_le : e ≤ start + size := alignDown_le
  have hb30 : (2 : Nat) ^ 30 ∣ b := by rw [hb_def, ← MAX_ALIGN_eq]; exact alignDown_dvd
  have hdvd_stb : PS ∣ (st - b) := by
    by_cases hk : trailingZeros PS ≤ 30
    · have h30 : PS ∣ 2 ^ 30 := by rw [← isPow2_pow hpow]; exact pow_dvd_pow 2 hk
      exact Nat.dvd_sub' alignUp_dvd (h30.trans hb30)
    · have h30 : (2 : Nat) ^ 30 ∣ PS := by
        rw [← isPow2_pow hpow]; exact pow_dvd_pow 2 (by omega)
      have hst30 : (2 : Nat) ^ 30 ∣ st := h30.trans alignUp_dvd
      have hbst : b = st := by rw [hb_def, MAX_ALIGN_eq]; exact alignDown_eq_of_dvd hst30
      rw [hbst]
      simp
  have hdvd_est : PS ∣ (e - st) := Nat.dvd_sub' alignDown_dvd alignUp_dvd
  have hoff_mul : off * PS = st - b := Nat.div_mul_cancel hdvd_stb
  have htotal_mul : total * PS = e - st := Nat.div_mul_cancel hdvd_est
  have htot_lt : total < USIZE := by
    have h1 : total ≤ e - st := by
      calc total ≤ total * PS := Nat.le_mul_of_pos_right total hPSpos
        _ = e - st := htotal_mul
    omega
  clear_value st e b off total
  refine ⟨?_, ?_, ?_, ?_, ?_, ?_⟩ <;>
    simp only [init, BitmapPageAllocator.new, Finset.empty_union, ← hst_def, ← he_def,
      ← hb_def, ← hoff_def, ← htotal_def]
  · intro i hi
    rw [Finset.mem_Ico] at hi
    exact hi
  · rw [Nat.card_Ico]
    omega
  · omega
  · exact htot_lt
  · have h1 : (off + total) * PS = (st - b) + (e - st) := by
      rw [add_mul, hoff_mul, htotal_mul]
    omega
  · exact hb30

theorem alloc_pages_inv {PS off num a addr : Nat} {s s' : BitmapPageAllocator}
    (hI : Inv PS off s) (h : alloc_pages PS s num a = .ok (addr, s')) :
    Inv PS off s' := by
  obtain ⟨hsub, hcard, hle, htot, hbound, hb⟩ := hI
  obtain ⟨-, -, -, hav, -, hb', ht', hu', idx, -, hidx, hbr⟩ := alloc_pages_ok_raw h
  rw [available_pages] at hav
  rcases hbr with ⟨h1, hinner⟩ | ⟨h1, -, hrun, hinner⟩
  · subst h1
    refine ⟨?_, ?_, ?_, ?_, ?_, ?_⟩ <;> simp only [hb', ht', hu', hinner]
    · intro i hi
      exact hsub i (Finset.mem_of_mem_erase hi)
    · rw [Finset.card_erase_of_mem hidx]
      omega
    · omega
    · exact htot
    · exact hbound
    · exact hb
  · have hss : Finset.Ico idx (idx + num) ⊆ s.inner := fun j hj => hrun j hj
    refine ⟨?_, ?_, ?_, ?_, ?_, ?_⟩ <;> simp only [hb', ht', hu', hinner]
    · intro i hi
      exact hsub i (Finset.mem_sdiff.mp hi).1
    · rw [Finset.card_sdiff hss, Nat.card_Ico]
      omega
    · omega
    · exact htot
    · exact hbound
    · exact hb

theorem alloc_pages_at_inv {PS b num a r : Nat} {off : Nat} {s s' : BitmapPageAllocator}
    (hI : Inv PS off s) (h : alloc_pages_at PS s b num a = .ok (r, s')) :
    Inv PS off s' := by
  obtain ⟨hsub, hcard, hle, htot, hbound, hbase⟩ := hI
  obtain ⟨-, -, -, -, -, hb', ht', hu', -, -, hrun, hinner⟩ := alloc_pages_at_ok_raw h
  have hss : Finset.Ico (wsub b s.base / PS) (wsub b s.base / PS + num) ⊆ s.inner :=
    fun j hj => hrun j hj
  have hnum : num ≤ s.inner.card := by
    have := Finset.card_le_card hss
    rw [Nat.card_Ico] at this
    omega
  refine ⟨?_, ?_, ?_, ?_, ?_, ?_⟩ <;> simp only [hb', ht', hu', hinner]
  · intro i hi
    exact hsub i (Finset.mem_sdiff.mp hi).1
  · rw [Finset.card_sdiff hss, Nat.card_Ico]
    omega
  · omega
  · exact htot
  · exact hbound
  · exact hbase

theorem dealloc_pages_one (PS pos : Nat) (s : BitmapPageAllocator)
    (hnot : wsub pos s.base / PS ∉ s.inner) :
    dealloc_pages PS s pos 1 =
      { s with
        inner := insert (wsub pos s.base / PS) s.inner
        used_pages := wsub s.used_pages 1 } := by
  have h0 : (bitDealloc s.inner (wsub pos s.base / PS)).1 = true := decide_eq_true hnot
  simp only [dealloc_pages, if_true]
  rw [h0, if_pos rfl]
  rfl

theorem dealloc_pages_many (PS pos n : Nat) (s : BitmapPageAllocator)
    (hrep : ∀ j ∈ Finset.Ico (wsub pos s.base / PS) (wsub pos s.base / PS + (n + 2)),
      j ∉ s.inner) :
    dealloc_pages PS s pos (n + 2) =
      { s with
        inner := s.inner ∪ Finset.Ico (wsub pos s.base / PS) (wsub pos s.base / PS + (n + 2))
        used_pages := wsub s.used_pages (n + 2) } := by
  have h0 : (deallocContiguous s.inner (wsub pos s.base / PS) (n + 2)).1 = true :=
    decide_eq_true hrep
  simp only [dealloc_pages]
  rw [if_neg (by omega : ¬ (n + 2 = 1)), if_pos (by omega : 1 < n + 2), h0, if_pos rfl]
  rfl

theorem dealloc_pages_inv {PS off pos num : Nat} {s : BitmapPageAllocator}
    (hI : Inv PS off s)
    (hrun : ∀ j ∈ Finset.Ico (wsub pos s.base / PS) (wsub pos s.base / PS + num),
      (off ≤ j ∧ j < off + s.total_pages) ∧ j ∉ s.inner) :
    Inv PS off (dealloc_pages PS s pos num) := by
  obtain ⟨hsub, hcard, hle, htot, hbound, hbase⟩ := hI
  match num with
  | 0 => exact ⟨hsub, hcard, hle, htot, hbound, hbase⟩
  | 1 =>
    have hmem := hrun (wsub pos s.base / PS) (by rw [Finset.mem_Ico]; omega)
    have hnot : wsub pos s.base / PS ∉ s.inner := hmem.2
    have hwin : wsub pos s.base / PS ∈ Finset.Ico off (off + s.total_pages) := by
      rw [Finset.mem_Ico]; exact hmem.1
    have hss : s.inner ⊆ (Finset.Ico off (off + s.total_pages)).erase (wsub pos s.base / PS) := by
      intro j hj
      rw [Finset.mem_erase, Finset.mem_Ico]
      exact ⟨fun he => hnot (he ▸ hj), hsub j hj⟩
    have hcardle : s.inner.card ≤ s.total_pages - 1 := by
      have h1 := Finset.card_le_card hss
      rw [Finset.card_erase_of_mem hwin, Nat.card_Ico] at h1
      omega
    have hused : 1 ≤ s.used_pages := by
      have h2 : 1 ≤ s.total_pages := by omega
      omega
    have hw : wsub s.used_pages 1 = s.used_pages - 1 := wsub_of_le hused (by omega)
    rw [dealloc_pages_one PS pos s hnot]
    refine ⟨?_, ?_, ?_, ?_, ?_, ?_⟩ <;> dsimp only
    · intro i hi
      rcases Finset.mem_insert.mp hi with he | hi'
      · subst he; exact hmem.1
      · exact hsub i hi'
    · rw [Finset.card_insert_of_not_mem hnot, hw]
      omega
    · rw [hw]
      omega
    · exact htot
    · exact hbound
    · exact hbase
  | (n + 2) =>
    have hrep : ∀ j ∈ Finset.Ico (wsub pos s.base / PS) (wsub pos s.base / PS + (n + 2)),
        j ∉ s.inner := fun j hj => (hrun j hj).2
    have hdisj : Disjoint s.inner
        (Finset.Ico (wsub pos s.base / PS) (wsub pos s.base / PS + (n + 2))) := by
      rw [Finset.disjoint_right]
      intro j hj
      exact hrep j hj
    have hcardle : s.inner.card + (n + 2) ≤ s.total_pages := by
      have h1 : s.inner ∪ Finset.Ico (wsub pos s.base / PS) (wsub pos s.base / PS + (n + 2)) ⊆
          Finset.Ico off (off + s.total_pages) := by
        intro j hj
        rw [Finset.mem_Ico]
        rcases Finset.mem_union.mp hj with hj' | hj'
        · exact hsub j hj'
        · exact (hrun j hj').1
      have h2 := Finset.card_le_card h1
      rw [Finset.card_union_of_disjoint hdisj, Nat.card_Ico, Nat.card_Ico] at h2
      omega
    have hused : n + 2 ≤ s.used_pages := by omega
    have hw : wsub s.used_pages (n + 2) = s.used_pages - (n + 2) :=
      wsub_of_le hused (by omega)
    rw [dealloc_pages_many PS pos n s hrep]
    refine ⟨?_, ?_, ?_, ?_, ?_, ?_⟩ <;> dsimp only
    · intro i hi
      rcases Finset.mem_union.mp hi with hi' | hi'
      · exact hsub i hi'
      · exact (hrun i hi').1
    · rw [Finset.card_union_of_disjoint hdisj, Nat.card_Ico, hw]
      omega
    · rw [hw]
      omega
    · exact htot
    · exact hbound
    · exact hbase

theorem wsub_of_lt {a b : Nat} (h : a < b) (hb : b ≤ USIZE) : wsub a b = USIZE - (b - a) := by
  unfold wsub
  have h1 : USIZE + a - b = USIZE - (b - a) := by omega
  have h2 : 0 < USIZE := by decide
  rw [h1, Nat.mod_eq_of_lt (by omega)]





theorem properReach_inv {PS off : Nat} {s : BitmapPageAllocator}
    (h : ProperReach PS off s) : Inv PS off s := by
  induction h with
  | start st sz hpow hle hsz => exact init_inv hpow hle hsz
  | alloc_step hr hok ih => exact alloc_pages_inv ih hok
  | alloc_at_step hr hok ih => exact alloc_pages_at_inv ih hok
  | dealloc_step pos num hr hal hrun ih => exact dealloc_pages_inv ih hrun

theorem isAligned_dvd {x a : Nat} (h : isAligned x a = true) : a ∣ x :=
  Nat.dvd_of_mod_eq_zero (by simpa [isAligned] using h)

theorem isAligned_of_dvd {x a : Nat} (h : a ∣ x) : isAligned x a = true := by
  obtain ⟨c, rfl⟩ := h
  simp [isAligned, Nat.mul_mod_right]

theorem align_dvd_pow30 {PS a : Nat} (hpow : isPow2 PS = true)
    (ha1 : a ≤ MAX_ALIGN_1GB) (ha2 : isAligned a PS = true) (ha3 : isPow2 (a / PS) = true) :
    a ∣ 2 ^ 30 := by
  have hPSa : PS ∣ a := isAligned_dvd ha2
  have ha : a = 2 ^ (trailingZeros (a / PS) + trailingZeros PS) := by
    rw [pow_add, isPow2_pow ha3, isPow2_pow hpow]
    exact (Nat.div_mul_cancel hPSa).symm
  have hle : 2 ^ (trailingZeros (a / PS) + trailingZeros PS) ≤ 2 ^ 30 := by
    rw [← ha, ← MAX_ALIGN_eq]
    exact ha1
  have hexp : trailingZeros (a / PS) + trailingZeros PS ≤ 30 :=
    (Nat.pow_le_pow_iff_right (by norm_num)).mp hle
  rw [ha]
  exact pow_dvd_pow 2 hexp

theorem PS_le_align {PS a : Nat} (ha3 : isPow2 (a / PS) = true) : PS ≤ a := by
  by_contra hlt
  rw [Nat.div_eq_of_lt (by omega)] at ha3
  exact absurd ha3 (by decide)

/-- C6: after a valid `init(start, size)` on a fresh allocator,
`total_pages = (align_down(start+size, PAGE_SIZE) - align_up(start, PAGE_SIZE)) / PAGE_SIZE`,
`used_pages = 0`, and `base = align_down(align_up(start, PAGE_SIZE), MAX_ALIGN)`,
hence `base % MAX_ALIGN == 0`. -/
theorem C6_init_contract (PS start size : Nat) (_hpow : isPow2 PS = true) :
    (init PS BitmapPageAllocator.new start size).total_pages
        = (alignDown (start + size) PS - alignUp start PS) / PS ∧
    (init PS BitmapPageAllocator.new start size).used_pages = 0 ∧
    (init PS BitmapPageAllocator.new start size).base
        = alignDown (alignUp start PS) MAX_ALIGN_1GB ∧
    (init PS BitmapPageAllocator.new start size).base % MAX_ALIGN_1GB = 0 := by
  refine ⟨rfl, rfl, rfl, ?_⟩
  obtain ⟨c, hc⟩ : MAX_ALIGN_1GB ∣ (init PS BitmapPageAllocator.new start size).base :=
    alignDown_dvd
  rw [hc, Nat.mul_mod_right]

/-- C8: `alloc_pages` rejects with `InvalidParam` any call whose alignment is
not a multiple of `PAGE_SIZE`, or exceeds `MAX_ALIGN`, or whose
`align / PAGE_SIZE` is not a power of two, or whose `num_pages` is zero. -/
theorem C8_alloc_pages_validation (PS : Nat) (s : BitmapPageAllocator) (num a : Nat)
    (h : ¬ PS ∣ a ∨ MAX_ALIGN_1GB < a ∨ isPow2 (a / PS) = false ∨ num = 0) :
    alloc_pages PS s num a = .error .InvalidParam := by
  simp only [alloc_pages]
  by_cases h1 : MAX_ALIGN_1GB < a ∨ isAligned a PS = false
  · rw [if_pos h1]
  rw [if_neg h1]
  rw [not_or, Bool.not_eq_false] at h1
  have hdvd : PS ∣ a := isAligned_dvd h1.2
  rcases h with hnd | hlt | hp | hn0
  · exact absurd hdvd hnd
  · omega
  · rw [if_pos hp]
  · subst hn0
    by_cases hp : isPow2 (a / PS) = false
    · rw [if_pos hp]
    · rw [if_neg hp, if_neg (by omega : ¬ available_pages s < 0),
        if_neg (by omega : ¬ (0 = 1)), if_neg (by omega : ¬ 1 < 0)]

/-- C10: `dealloc_pages(addr, 0)` on a page-aligned address is a no-op:
no bit is cleared and no accounting field changes. -/
theorem C10_dealloc_zero_noop (PS : Nat) (s : BitmapPageAllocator) (pos : Nat)
    (_hal : isAligned pos PS = true) :
    dealloc_pages PS s pos 0 = s := rfl

/-- C2: with valid alignment parameters, requesting more pages than
`available_pages()` makes both `alloc_pages` and `alloc_pages_at` fail with
`NoMemory`, with no state (hence no accounting field) changed. -/
theorem C2_over_capacity (PS off : Nat) (s : BitmapPageAllocator) (num a b : Nat)
    (hI : Inv PS off s)
    (ha1 : a ≤ MAX_ALIGN_1GB) (ha2 : isAligned a PS = true) (ha3 : isPow2 (a / PS) = true)
    (hb : isAligned b a = true)
    (hn : available_pages s < num) :
    alloc_pages PS s num a = .error .NoMemory ∧
    alloc_pages_at PS s b num a = .error .NoMemory := by
  constructor
  · simp only [alloc_pages]
    rw [if_neg (by simp [ha2]; omega), if_neg (by simp [ha3]), if_pos hn]
  · simp only [alloc_pages_at]
    rw [if_neg (by simp [ha2, hb]; omega), if_neg (by simp [ha3])]
    rw [allocContiguous_hint_none ?_]
    rintro ⟨-, hall⟩
    obtain ⟨-, hcard, -, -, -, -⟩ := hI
    have hss : Finset.Ico (wsub b s.base / PS) (wsub b s.base / PS + num) ⊆ s.inner :=
      fun j hj => hall j hj
    have hc := Finset.card_le_card hss
    rw [Nat.card_Ico, available_pages] at *
    omega

/-- C3 (amended): `alloc_pages_at` does not validate `num_pages == 0`: with
valid alignment parameters such a call never returns `InvalidParam`, and when
it succeeds it changes no accounting field and no bit of the index space. -/
theorem C3_alloc_at_zero_pages (PS : Nat) (s : BitmapPageAllocator) (b a : Nat)
    (ha1 : a ≤ MAX_ALIGN_1GB) (ha2 : isAligned a PS = true) (ha3 : isPow2 (a / PS) = true)
    (hb : isAligned b a = true) :
    alloc_pages_at PS s b 0 a ≠ .error .InvalidParam ∧
    ∀ r s', alloc_pages_at PS s b 0 a = .ok (r, s') →
      s'.used_pages = s.used_pages ∧ s'.total_pages = s.total_pages ∧ s'.inner = s.inner := by
  constructor
  · simp only [alloc_pages_at]
    rw [if_neg (by simp [ha2, hb]; omega), if_neg (by simp [ha3])]
    split
    · intro hc
      exact Except.noConfusion hc
    · intro hc
      injection hc with hc'
      exact AllocError.noConfusion hc'
  · intro r s' hok
    obtain ⟨-, -, -, -, -, -, ht', hu', -, -, -, hinner⟩ := alloc_pages_at_ok_raw hok
    refine ⟨by omega, ht', ?_⟩
    rw [hinner, Nat.add_zero, Finset.Ico_self, Finset.sdiff_empty]

theorem dealloc_pages_one_mem (PS pos : Nat) (s : BitmapPageAllocator)
    (hmem : wsub pos s.base / PS ∈ s.inner) :
    dealloc_pages PS s pos 1 =
      { s with inner := insert (wsub pos s.base / PS) s.inner } := by
  have h0 : (bitDealloc s.inner (wsub pos s.base / PS)).1 = false := by
    simp [bitDealloc, hmem]
  simp only [dealloc_pages, if_true]
  rw [h0, if_neg (by simp)]
  rfl

theorem dealloc_pages_many_mem (PS pos n : Nat) (s : BitmapPageAllocator)
    (hmem : ¬ ∀ j ∈ Finset.Ico (wsub pos s.base / PS) (wsub pos s.base / PS + (n + 2)),
      j ∉ s.inner) :
    dealloc_pages PS s pos (n + 2) =
      { s with inner := s.inner ∪
          Finset.Ico (wsub pos s.base / PS) (wsub pos s.base / PS + (n + 2)) } := by
  have h0 : (deallocContiguous s.inner (wsub pos s.base / PS) (n + 2)).1 = false :=
    decide_eq_false hmem
  simp only [dealloc_pages]
  rw [if_neg (by omega : ¬ (n + 2 = 1)), if_pos (by omega : 1 < n + 2), h0, if_neg (by simp)]
  rfl

/-- C4: with valid parameters (including `num_pages ≥ 1`), `alloc_pages_at`
fails with `NoMemory` — and mutates nothing, and does not panic under the
compiled wrap-around arithmetic — whenever the requested run is partly
allocated, or lies outside the managed index window, or `addr` is below the
allocator's `base`. -/
theorem C4_alloc_at_failure (PS off : Nat) (s : BitmapPageAllocator) (b num a : Nat)
    (hI : Inv PS off s)
    (ha1 : a ≤ MAX_ALIGN_1GB) (ha2 : isAligned a PS = true) (ha3 : isPow2 (a / PS) = true)
    (hb : isAligned b a = true) (hnum : 1 ≤ num)
    (hcase : b < s.base ∨
      (∃ j ∈ Finset.Ico (wsub b s.base / PS) (wsub b s.base / PS + num), j ∉ s.inner) ∨
      ¬ (∀ j ∈ Finset.Ico (wsub b s.base / PS) (wsub b s.base / PS + num),
          off ≤ j ∧ j < off + s.total_pages)) :
    alloc_pages_at PS s b num a = .error .NoMemory := by
  obtain ⟨hsub, -, -, -, hbound, -⟩ := hI
  have hPSpos : 0 < PS := pos_PS_of_valid ha3
  simp only [alloc_pages_at]
  rw [if_neg (by simp [ha2, hb]; omega), if_neg (by simp [ha3])]
  rw [allocContiguous_hint_none ?_]
  rintro ⟨-, hall⟩
  rcases hcase with hlt | ⟨j, hj, hnot⟩ | hwin
  · have hidx_mem : wsub b s.base / PS ∈ s.inner := hall _ (by rw [Finset.mem_Ico]; omega)
    have hlt2 := (hsub _ hidx_mem).2
    have hA_lt : wsub b s.base < (wsub b s.base / PS + 1) * PS := by
      have hdm := Nat.div_add_mod (wsub b s.base) PS
      have hmod := Nat.mod_lt (wsub b s.base) hPSpos
      have hcomm : PS * (wsub b s.base / PS) = (wsub b s.base / PS) * PS :=
        Nat.mul_comm _ _
      rw [Nat.succ_mul]
      omega
    have hmul : (wsub b s.base / PS + 1) * PS ≤ (off + s.total_pages) * PS :=
      Nat.mul_le_mul_right _ (by omega)
    have hw : wsub b s.base = USIZE - (s.base - b) := wsub_of_lt hlt (by omega)
    omega
  · exact hnot (hall j hj)
  · exact hwin fun j hj => hsub j (hall j hj)

/-- C9: a page-aligned `dealloc_pages(addr, num_pages)` call (with a sane
accounting state) decrements `used_pages` by `num_pages` exactly when the
index space reports the cleared run fully allocated beforehand, and leaves
`used_pages` unchanged otherwise. -/
theorem C9_dealloc_defensive (PS : Nat) (s : BitmapPageAllocator) (pos num : Nat)
    (_hal : isAligned pos PS = true) (h1 : 1 ≤ num) (h2 : num ≤ s.used_pages)
    (h3 : s.used_pages < USIZE) :
    (dealloc_pages PS s pos num).used_pages =
      if ∀ j ∈ Finset.Ico (wsub pos s.base / PS) (wsub pos s.base / PS + num), j ∉ s.inner
      then s.used_pages - num else s.used_pages := by
  have hw : wsub s.used_pages num = s.used_pages - num := wsub_of_le h2 (by omega)
  match num, h2, hw with
  | 1, h2, hw =>
    by_cases hmem : wsub pos s.base / PS ∈ s.inner
    · rw [dealloc_pages_one_mem PS pos s hmem,
        if_neg (fun hall => hall _ (by rw [Finset.mem_Ico]; omega) hmem)]
    · rw [dealloc_pages_one PS pos s hmem, if_pos ?_]
      · exact hw
      · intro j hj
        rw [Finset.mem_Ico] at hj
        have hji : j = wsub pos s.base / PS := by omega
        rwa [hji]
  | (n + 2), h2, hw =>
    by_cases hrep : ∀ j ∈ Finset.Ico (wsub pos s.base / PS)
        (wsub pos s.base / PS + (n + 2)), j ∉ s.inner
    · rw [dealloc_pages_many PS pos n s hrep, if_pos hrep]
      exact hw
    · rw [dealloc_pages_many_mem PS pos n s hrep, if_neg hrep]

/-- C1 (amended): a successful `alloc_pages(num_pages, align)` returns an
address with `address % align == 0` whenever `num_pages ≥ 2`; for
`num_pages == 1` the alignment request is ignored and only page alignment
(`address % PAGE_SIZE == 0`) is guaranteed. -/
theorem C1_alloc_pages_alignment {PS off num a addr : Nat} {s s' : BitmapPageAllocator}
    (hI : Inv PS off s) (hpow : isPow2 PS = true)
    (h : alloc_pages PS s num a = .ok (addr, s')) :
    (2 ≤ num → addr % a = 0) ∧ addr % PS = 0 := by
  obtain ⟨ha1, ha2, ha3, -, hPSpos, -, -, -, idx, haddr, hidx, hbr⟩ := alloc_pages_ok_raw h
  rw [addr_no_wrap hI hPSpos hidx] at haddr
  have hb30 : (2 : Nat) ^ 30 ∣ s.base := hI.2.2.2.2.2
  have ha30 : a ∣ 2 ^ 30 := align_dvd_pow30 hpow ha1 ha2 ha3
  have hPSbase : PS ∣ s.base := ((isAligned_dvd ha2).trans ha30).trans hb30
  constructor
  · intro h2
    rcases hbr with ⟨h1, -⟩ | ⟨-, hdvd, -, -⟩
    · omega
    · have hmul : (a / PS) * PS ∣ idx * PS := mul_dvd_mul_right hdvd PS
      rw [Nat.div_mul_cancel (isAligned_dvd ha2)] at hmul
      obtain ⟨c, hc⟩ : a ∣ addr := haddr ▸ dvd_add hmul (ha30.trans hb30)
      rw [hc, Nat.mul_mod_right]
  · obtain ⟨c, hc⟩ : PS ∣ addr := haddr ▸ dvd_add (dvd_mul_left PS idx) hPSbase
    rw [hc, Nat.mul_mod_right]

/-- C7: a successful `alloc_pages(n, a)` returning `addr` followed by
`dealloc_pages(addr, n)` restores `used_pages` and `available_pages` to
their pre-allocation values (and `addr` satisfies the deallocation
alignment assertion). -/
theorem C7_alloc_dealloc_roundtrip {PS off num a addr : Nat} {s s₁ : BitmapPageAllocator}
    (hI : Inv PS off s) (hpow : isPow2 PS = true)
    (h : alloc_pages PS s num a = .ok (addr, s₁)) :
    isAligned addr PS = true ∧
    (dealloc_pages PS s₁ addr num).used_pages = s.used_pages ∧
    available_pages (dealloc_pages PS s₁ addr num) = available_pages s := by
  obtain ⟨ha1, ha2, ha3, hav, hPSpos, hb', ht', hu', idx, haddr, hidx, hbr⟩ :=
    alloc_pages_ok_raw h
  have hlt : idx * PS + s.base < USIZE := by
    have hw1 := (hI.1 idx hidx).2
    have hw2 : (idx + 1) * PS ≤ (off + s.total_pages) * PS :=
      Nat.mul_le_mul_right _ (by omega)
    have hbound := hI.2.2.2.2.1
    rw [Nat.succ_mul] at hw2
    omega
  rw [Nat.mod_eq_of_lt hlt] at haddr
  subst haddr
  have hb30 : (2 : Nat) ^ 30 ∣ s.base := hI.2.2.2.2.2
  have ha30 : a ∣ 2 ^ 30 := align_dvd_pow30 hpow ha1 ha2 ha3
  have hPSbase : PS ∣ s.base := ((isAligned_dvd ha2).trans ha30).trans hb30
  have haligned : isAligned (idx * PS + s.base) PS = true :=
    isAligned_of_dvd (dvd_add (dvd_mul_left PS idx) hPSbase)
  have hwb : wsub (idx * PS + s.base) s₁.base / PS = idx := by
    rw [hb', wsub_of_le (Nat.le_add_left _ _) (by omega), Nat.add_sub_cancel,
      Nat.mul_div_cancel _ hPSpos]
  have hle := hI.2.2.1
  have htot := hI.2.2.2.1
  rw [available_pages] at hav
  have hwused : wsub (s.used_pages + num) num = s.used_pages := by
    rw [wsub_of_le (by omega) (by omega)]
    omega
  rcases hbr with ⟨h1, hinner⟩ | ⟨h1, -, -, hinner⟩
  · subst h1
    have hnot : wsub (idx * PS + s.base) s₁.base / PS ∉ s₁.inner := by
      rw [hwb, hinner]
      exact Finset.not_mem_erase _ _
    rw [dealloc_pages_one PS _ s₁ hnot]
    refine ⟨haligned, ?_, ?_⟩
    · dsimp only
      rw [hu']
      exact hwused
    · simp only [available_pages]
      rw [ht', hu', hwused]
  · obtain ⟨n, rfl⟩ : ∃ n, num = n + 2 := ⟨num - 2, by omega⟩
    have hrep : ∀ j ∈ Finset.Ico (wsub (idx * PS + s.base) s₁.base / PS)
        (wsub (idx * PS + s.base) s₁.base / PS + (n + 2)), j ∉ s₁.inner := by
      intro j hj
      rw [hwb] at hj
      rw [hinner]
      exact Finset.not_mem_sdiff_of_mem_right hj
    rw [dealloc_pages_many PS _ n s₁ hrep]
    refine ⟨haligned, ?_, ?_⟩
    · dsimp only
      rw [hu']
      exact hwused
    · simp only [available_pages]
      rw [ht', hu', hwused]

/-- C5 (amended): in every state reachable from a fresh allocator by a valid
`init` and any sequence of `alloc_pages`, `alloc_pages_at` and *proper*
`dealloc_pages` calls (each deallocation frees a fully-allocated run inside
the managed window), `used_pages <= total_pages` holds and
`available_pages() + used_pages() == total_pages()` (no usize underflow). -/
theorem C5_accounting_invariant {PS off : Nat} {s : BitmapPageAllocator}
    (h : ProperReach PS off s) :
    s.used_pages ≤ s.total_pages ∧ available_pages s + s.used_pages = s.total_pages := by
  obtain ⟨-, -, hle, -, -, -⟩ := properReach_inv h
  refine ⟨hle, ?_⟩
  rw [available_pages]
  omega







/-- C1 counterexample: on the allocator initialized with
`init(0x40001000, 0x2000)` (`PAGE_SIZE = 4096`), the call
`alloc_pages(1, 0x2000)` succeeds and returns `0x40001000`, which does not
satisfy `address % 0x2000 == 0`: the single-page path ignores `align`. -/
theorem C1_counterexample :
    alloc_pages 4096 (init 4096 BitmapPageAllocator.new 0x40001000 0x2000) 1 0x2000 =
      .ok (0x40001000,
        { base := 0x40000000, total_pages := 2, used_pages := 1, inner := {2} }) ∧
    ¬ (0x40001000 % 0x2000 = 0) := by
  refine ⟨by decide, by decide⟩

theorem C1_witness :
    (2 ≤ 2 → 0x40000000 % 0x2000 = 0) ∧ 0x40000000 % 4096 = 0 :=
  @C1_alloc_pages_alignment 4096 0 2 0x2000 0x40000000 stateW
    { base := 0x40000000, total_pages := 4, used_pages := 2, inner := {2, 3} }
    (by refine ⟨?_, ?_, ?_, ?_, ?_, ?_⟩ <;> decide) (by decide) (by decide)

theorem C2_witness :
    alloc_pages 4096 stateA 3 4096 = .error .NoMemory ∧
    alloc_pages_at 4096 stateA 0x40001000 3 4096 = .error .NoMemory :=
  C2_over_capacity 4096 1 stateA 3 4096 0x40001000
    (by refine ⟨?_, ?_, ?_, ?_, ?_, ?_⟩ <;> decide)
    (by decide) (by decide) (by decide) (by decide) (by decide)

/-- C3 counterexample: `alloc_pages_at(0x40001000, 0, 0x1000)` with valid
alignment parameters does not return `InvalidParam` (it succeeds), so
`alloc_pages_at` does not perform the `num_pages == 0` validation of
`alloc_pages`. -/
theorem C3_counterexample :
    alloc_pages_at 4096 stateA 0x40001000 0 4096 ≠ .error .InvalidParam := by
  decide

theorem C3_witness :
    alloc_pages_at 4096 stateA 0x40001000 0 4096 ≠ .error .InvalidParam ∧
    ∀ r s', alloc_pages_at 4096 stateA 0x40001000 0 4096 = .ok (r, s') →
      s'.used_pages = stateA.used_pages ∧ s'.total_pages = stateA.total_pages ∧
      s'.inner = stateA.inner :=
  C3_alloc_at_zero_pages 4096 stateA 0x40001000 4096
    (by decide) (by decide) (by decide) (by decide)

theorem C4_witness :
    alloc_pages_at 4096 stateA 0x3FFFF000 1 4096 = .error .NoMemory :=
  C4_alloc_at_failure 4096 1 stateA 0x3FFFF000 1 4096
    (by refine ⟨?_, ?_, ?_, ?_, ?_, ?_⟩ <;> decide)
    (by decide) (by decide) (by decide) (by decide) (by decide)
    (Or.inl (by decide))

/-- C5 counterexample: a state with `used_pages > total_pages` is reachable
by `init`, one page-aligned `dealloc_pages` call on a run overlapping the
reserved below-window bits, and one `alloc_pages_at` call (which performs no
capacity check), refuting the claimed invariant for unrestricted call
sequences. -/
theorem C5_counterexample :
    Reach 4096
      { base := 0x40000000, total_pages := 2, used_pages := 3, inner := (∅ : Finset Nat) } ∧
    ({ base := 0x40000000, total_pages := 2, used_pages := 3,
       inner := (∅ : Finset Nat) } : BitmapPageAllocator).total_pages <
    ({ base := 0x40000000, total_pages := 2, used_pages := 3,
       inner := (∅ : Finset Nat) } : BitmapPageAllocator).used_pages := by
  constructor
  · have h0 : Reach 4096 (init 4096 BitmapPageAllocator.new 0x40001000 0x2000) :=
      Reach.start 0x40001000 0x2000 (by decide) (by decide) (by decide)
    have h1 : Reach 4096
        (dealloc_pages 4096 (init 4096 BitmapPageAllocator.new 0x40001000 0x2000)
          0x40000000 3) :=
      Reach.dealloc_step 0x40000000 3 h0 (by decide)
    have h2 : alloc_pages_at 4096
        (dealloc_pages 4096 (init 4096 BitmapPageAllocator.new 0x40001000 0x2000)
          0x40000000 3) 0x40000000 3 4096 =
        .ok (0x40000000,
          { base := 0x40000000, total_pages := 2, used_pages := 3,
            inner := (∅ : Finset Nat) }) := by
      decide
    exact Reach.alloc_at_step h1 h2
  · decide

theorem C5_witness :
    (init 4096 BitmapPageAllocator.new 0x40001000 0x2000).used_pages ≤
      (init 4096 BitmapPageAllocator.new 0x40001000 0x2000).total_pages ∧
    available_pages (init 4096 BitmapPageAllocator.new 0x40001000 0x2000) +
      (init 4096 BitmapPageAllocator.new 0x40001000 0x2000).used_pages =
      (init 4096 BitmapPageAllocator.new 0x40001000 0x2000).total_pages :=
  C5_accounting_invariant
    (ProperReach.start 0x40001000 0x2000 (by decide) (by decide) (by decide))

theorem C6_witness :
    (init 4096 BitmapPageAllocator.new 0x1000 0x1000).total_pages
        = (alignDown (0x1000 + 0x1000) 4096 - alignUp 0x1000 4096) / 4096 ∧
    (init 4096 BitmapPageAllocator.new 0x1000 0x1000).used_pages = 0 ∧
    (init 4096 BitmapPageAllocator.new 0x1000 0x1000).base
        = alignDown (alignUp 0x1000 4096) MAX_ALIGN_1GB ∧
    (init 4096 BitmapPageAllocator.new 0x1000 0x1000).base % MAX_ALIGN_1GB = 0 :=
  C6_init_contract 4096 0x1000 0x1000 (by decide)

theorem C7_witness :
    isAligned 0x40001000 4096 = true ∧
    (dealloc_pages 4096 stateB 0x40001000 1).used_pages = stateA.used_pages ∧
    available_pages (dealloc_pages 4096 stateB 0x40001000 1) = available_pages stateA :=
  @C7_alloc_dealloc_roundtrip 4096 1 1 4096 0x40001000 stateA stateB
    (by refine ⟨?_, ?_, ?_, ?_, ?_, ?_⟩ <;> decide) (by decide) (by decide)

theorem C8_witness :
    alloc_pages 4096 stateA 1 0x1800 = .error .InvalidParam :=
  C8_alloc_pages_validation 4096 stateA 1 0x1800 (Or.inl (by decide))

theorem C9_witness :
    (dealloc_pages 4096 stateB 0x40001000 1).used_pages =
      if ∀ j ∈ Finset.Ico (wsub 0x40001000 stateB.base / 4096)
          (wsub 0x40001000 stateB.base / 4096 + 1), j ∉ stateB.inner
      then stateB.used_pages - 1 else stateB.used_pages :=
  C9_dealloc_defensive 4096 stateB 0x40001000 1 (by decide) (by decide) (by decide)
    (by decide)

theorem C10_witness :
    dealloc_pages 4096 stateA 0x40001000 0 = stateA :=
  C10_dealloc_zero_noop 4096 stateA 0x40001000 (by decide)

end BitmapAlloc
